import Mathlib

/-!
# mqtt_broker: the entry point `src/broker.cc`

A shallow embedding of `broker.cc` (command line parsing, construction of the
listening socket, the two libevent callbacks) and the properties of it that
the specification states.

C strings are lists of characters.  Calls into libevent, the C++ streams and
the session manager are recorded, in program order, in a trace of `Call`s;
what the outside world answers (whether an allocation succeeds, which events
arrive) is an explicit parameter.  The C library functions `getopt_long` and
`atoi` and the address parser behind `evutil_inet_pton` are not part of the
repository; they are modelled after the glibc implementation, each in a
definition that says so.
-/

namespace MqttBroker

/-- A NUL-terminated C string, without its terminator. -/
abbrev CStr := List Char

/-! ## `getopt_long` (glibc), as far as `parse_arguments` uses it -/

/-- One entry of a `struct option` table: `{name, has_arg, flag, val}`.
A `flag` that is `NULL` is `none`. -/
structure option where
  name : CStr
  has_arg : Nat
  flag : Option Nat
  val : Char
  deriving DecidableEq, Repr

/-- The constant `no_argument` of `<getopt.h>`. -/
def no_argument : Nat := 0

/-- The constant `required_argument` of `<getopt.h>`. -/
def required_argument : Nat := 1

/-- The scanning state of `getopt`: `args` is `argv[optind ..]` once the
element being scanned has been left behind, `nextchar` the characters of the
current option cluster that are still to be looked at, `optarg` the global of
that name (`none` is `NULL`). -/
structure getopt_state where
  args : List CStr
  nextchar : CStr
  optarg : Option CStr
  deriving DecidableEq, Repr

/-- The macro `NONOPTION_P` of glibc: the element does not start with `-`, or
is exactly `-`. -/
def nonoption_p : CStr → Bool
  | '-' :: _ :: _ => false
  | _ => true

/-- The function `strchr(s, c)` for `c` other than NUL: the suffix of `s`
that starts at the first `c`. -/
def strchr : CStr → Char → Option CStr
  | [], _ => none
  | x :: xs, c => if x = c then some (x :: xs) else strchr xs c

/-- The value `getopt` returns for an unknown option or a missing argument. -/
def QUESTION : Int := ('?').toNat

/-- The abbreviation search of glibc `process_long_option`: the first entry
that `name` is a prefix of, and whether a later such entry differs from it in
`has_arg`, `flag` or `val` (the option is then ambiguous). -/
def find_abbrev (name : CStr) : List option → Option option → Bool → Option option × Bool
  | [], pfound, ambig => (pfound, ambig)
  | p :: ps, pfound, ambig =>
    if name.isPrefixOf p.name then
      match pfound with
      | none => find_abbrev name ps (some p) ambig
      | some q =>
        if q.has_arg ≠ p.has_arg ∨ q.flag ≠ p.flag ∨ q.val ≠ p.val then
          find_abbrev name ps pfound true
        else find_abbrev name ps pfound ambig
    else find_abbrev name ps pfound ambig

/-- The function `process_long_option` of glibc for an element `--text` (not
`getopt_long_only`): `text` is what follows the two dashes, `rest` the
elements after it. -/
def process_long_option (longopts : List option) (text : CStr) (rest : List CStr) :
    Int × getopt_state :=
  let name := text.takeWhile (fun c => c ≠ '=')
  let nameend := text.dropWhile (fun c => c ≠ '=')
  let pfound : Option option × Bool :=
    match longopts.find? (fun p => p.name = name) with
    | some p => (some p, false)
    | none => find_abbrev name longopts none false
  match pfound with
  | (_, true) => (QUESTION, ⟨rest, [], none⟩)
  | (none, false) => (QUESTION, ⟨rest, [], none⟩)
  | (some p, false) =>
    match nameend with
    | _ :: value =>
      if p.has_arg ≠ 0 then
        (if p.flag.isSome then 0 else (p.val.toNat : Int), ⟨rest, [], some value⟩)
      else (QUESTION, ⟨rest, [], none⟩)
    | [] =>
      if p.has_arg = 1 then
        match rest with
        | a :: rest1 =>
          (if p.flag.isSome then 0 else (p.val.toNat : Int), ⟨rest1, [], some a⟩)
        | [] => (QUESTION, ⟨[], [], none⟩)
      else (if p.flag.isSome then 0 else (p.val.toNat : Int), ⟨rest, [], none⟩)

/-- The short option part of glibc `_getopt_internal_r`: `c` is the option
character, `nextchar` what follows it in its element, `rest` the elements
after that element.  `optstring` starts with none of `+`, `-`, `:` and has no
`W;` and no `::`. -/
def short_option (optstring : CStr) (c : Char) (nextchar : CStr) (rest : List CStr) :
    Int × getopt_state :=
  match strchr optstring c with
  | none => (QUESTION, ⟨rest, nextchar, none⟩)
  | some temp =>
    if c = ':' ∨ c = ';' then (QUESTION, ⟨rest, nextchar, none⟩)
    else
      match temp with
      | _ :: ':' :: _ =>
        match nextchar, rest with
        | x :: xs, _ => ((c.toNat : Int), ⟨rest, [], some (x :: xs)⟩)
        | [], [] => (QUESTION, ⟨[], [], none⟩)
        | [], a :: rest1 => ((c.toNat : Int), ⟨rest1, [], some a⟩)
      | _ => ((c.toNat : Int), ⟨rest, nextchar, none⟩)

/-- The function `getopt_long(argc, argv, optstring, longopts, NULL)` of
glibc, one call: the returned value and the state it leaves.
`posixly_correct` says whether the environment variable `POSIXLY_CORRECT` is
set: scanning then stops at the first non-option, otherwise non-options are
skipped (glibc moves them behind the options). -/
def getopt_long (posixly_correct : Bool) (optstring : CStr) (longopts : List option)
    (st : getopt_state) : Int × getopt_state :=
  match st.nextchar with
  | c :: nextchar => short_option optstring c nextchar st.args
  | [] =>
    let args := if posixly_correct then st.args else st.args.dropWhile nonoption_p
    match args with
    | [] => (-1, ⟨[], [], none⟩)
    | a :: rest =>
      if a = ['-', '-'] then (-1, ⟨rest, [], none⟩)
      else
        match a with
        | '-' :: '-' :: text => process_long_option longopts text rest
        | '-' :: c :: nextchar => short_option optstring c nextchar rest
        | _ => (-1, ⟨a :: rest, [], none⟩)

/-! ## `atoi` (glibc) and the conversion to `uint16_t` -/

/-- The function `isspace` in the C locale. -/
def isspace (c : Char) : Bool := c.toNat = 32 ∨ (9 ≤ c.toNat ∧ c.toNat ≤ 13)

/-- The function `isdigit`. -/
def isdigit (c : Char) : Bool := 48 ≤ c.toNat ∧ c.toNat ≤ 57

/-- The digit loop of `strtol` in base 10: the value of the leading digits of
the text, accumulated onto `acc`. -/
def strtol_digits (acc : Nat) : CStr → Nat
  | [] => acc
  | c :: cs => if isdigit c then strtol_digits (10 * acc + (c.toNat - 48)) cs else acc

/-- The function `strtol(s, NULL, 10)` of glibc on a 64-bit `long`: leading
white space, an optional sign, the leading digits; a value out of range is
replaced by `LONG_MAX` or `LONG_MIN`. -/
def strtol (s : CStr) : Int :=
  match s.dropWhile isspace with
  | '-' :: ds => max (-(strtol_digits 0 ds : Int)) (-(2 ^ 63 : Int))
  | '+' :: ds => min (strtol_digits 0 ds : Int) (2 ^ 63 - 1)
  | ds => min (strtol_digits 0 ds : Int) (2 ^ 63 - 1)

/-- The function `atoi(s)`, which glibc defines as `(int) strtol(s, NULL, 10)`
with a 32-bit two's complement `int`. -/
def atoi (s : CStr) : Int := (strtol s + 2 ^ 31) % 2 ^ 32 - 2 ^ 31

/-- The conversion `static_cast<uint16_t>(x)` of an `int`. -/
def to_uint16 (x : Int) : Nat := (x % 65536).toNat

/-! ## `options_t`, `usage`, `parse_arguments` -/

/-- The struct `options_t` with its default member initialisers; the global
`options` starts out as `{}`. -/
structure options_t where
  bind_address : CStr := ['0']
  bind_port : Nat := 1883
  deriving DecidableEq, Repr

/-- The static table `longopts` of `parse_arguments`.  The source ends the
array after these three entries, without the all-zero entry `getopt_long`
expects as terminator; the table modelled is the entries the source lists. -/
def longopts : List option :=
  [ ⟨"bind-addr".toList, required_argument, none, 'b'⟩,
    ⟨"bind-port".toList, required_argument, none, 'p'⟩,
    ⟨"help".toList, no_argument, none, 'h'⟩ ]

/-- The option string `"b:p:h"` that `parse_arguments` passes. -/
def optstring : CStr := "b:p:h".toList

/-- How `parse_arguments` ends: it returns with the options it has stored, or
it prints the usage text and calls `std::exit(status)`. -/
inductive parse_result where
  | returned (options : options_t)
  | exited (status : Nat)
  deriving DecidableEq, Repr

/-- The `while` loop of `parse_arguments`, at most `fuel` calls of
`getopt_long`; `none` when the fuel does not suffice. -/
def parse_loop (posixly_correct : Bool) :
    Nat → getopt_state → options_t → Option parse_result
  | 0, _, _ => none
  | fuel + 1, st, options =>
    let r := getopt_long posixly_correct optstring longopts st
    if r.1 = -1 then some (.returned options)
    else if r.1 = ('b').toNat then
      parse_loop posixly_correct fuel r.2 { options with bind_address := r.2.optarg.getD [] }
    else if r.1 = ('p').toNat then
      parse_loop posixly_correct fuel r.2
        { options with bind_port := to_uint16 (atoi (r.2.optarg.getD [])) }
    else if r.1 = ('h').toNat then some (.exited 0)
    else some (.exited 1)

/-- The number of characters of the elements, each counted with its
terminator: every call of `getopt_long` that returns an option uses up at
least one of them. -/
def argv_size (args : List CStr) : Nat := (args.map (fun a => a.length + 1)).sum

/-- The function `parse_arguments(argc, argv)`, started on the value `options`
of the global; `argv` includes the program name `argv[0]`. -/
def parse_arguments (posixly_correct : Bool) (argv : List CStr) (options : options_t) :
    Option parse_result :=
  parse_loop posixly_correct (argv_size (argv.drop 1) + 1) ⟨argv.drop 1, [], none⟩ options

/-- The function `usage()`: the text it writes to `std::cout`. -/
def usage : String :=
"usage: mqtt_broker [OPTION]

MQTT broker server.  Bind to address and listen for client connections.

OPTIONS

--broker-host | -b        Broker host name or ip address, default localhost
--broker-port | -p        Broker port, default 1883
--help | -h               Display this message and exit
"

/-! ## The socket address -/

/-- The struct `sockaddr_in`.  The two members that are kept in network byte
order are the octets as they lie in memory: two for `sin_port`, four for
`sin_addr`. -/
structure sockaddr_in where
  sin_family : Nat
  sin_port : List Nat
  sin_addr : List Nat
  deriving DecidableEq, Repr

/-- The constant `AF_INET`. -/
def AF_INET : Nat := 2

/-- The function `htons`: the two octets of a 16-bit value, high octet
first. -/
def htons (x : Nat) : List Nat := [x / 256 % 256, x % 256]

/-- The function `inet_pton4` of glibc, which is what `inet_pton(AF_INET, ..)`
runs: `tmp` holds the octets that are complete, `cur` is `*tp`, the octet
being read.  The result is the four octets copied to `dst`, or `none` when
the function returns 0 and leaves `dst` alone. -/
def inet_pton4 : CStr → List Nat → Nat → Bool → Nat → Option (List Nat)
  | [], tmp, cur, _, octets => if octets < 4 then none else some (tmp ++ [cur])
  | ch :: src, tmp, cur, saw_digit, octets =>
    if isdigit ch then
      let new := cur * 10 + (ch.toNat - 48)
      if saw_digit ∧ cur = 0 then none
      else if new > 255 then none
      else if saw_digit then inet_pton4 src tmp new true octets
      else if octets + 1 > 4 then none
      else inet_pton4 src tmp new true (octets + 1)
    else if ch = '.' ∧ saw_digit then
      if octets = 4 then none else inet_pton4 src (tmp ++ [cur]) 0 false octets
    else none

/-- The function `evutil_inet_pton(af, src, dst)` of libevent for `AF_INET`,
where libevent uses the `inet_pton` of the C library: the octets written to
`dst`, or `none` when nothing is written. -/
def evutil_inet_pton (af : Nat) (src : CStr) : Option (List Nat) :=
  if af = AF_INET then inet_pton4 src [] 0 false 0 else none

/-! ## libevent calls and the two callbacks -/

/-- The callbacks of type `event_callback_fn` that `broker.cc` defines. -/
inductive event_callback_fn where
  | signal_cb
  deriving DecidableEq, Repr

/-- The callbacks of type `evconnlistener_cb` that `broker.cc` defines. -/
inductive evconnlistener_cb where
  | listener_cb
  deriving DecidableEq, Repr

/-- What the program does to the outside, one constructor for each function
it calls there.  Pointers are handles (numbers); an event is named by its
signal number. -/
inductive Call where
  | cout (text : String)
  | cerr (text : String)
  | exit (status : Nat)
  | event_base_new
  | evsignal_new (base signum : Nat) (cb : event_callback_fn) (arg : Nat)
  | evsignal_add (event : Nat)
  | evutil_inet_pton (af : Nat) (src : CStr)
  | evconnlistener_new_bind (base : Nat) (cb : evconnlistener_cb) (ptr : Nat) (flags : Nat)
      (backlog : Int) (sa : sockaddr_in)
  | event_base_dispatch (base : Nat)
  | event_free (event : Nat)
  | evconnlistener_free (listener : Nat)
  | event_base_free (base : Nat)
  | bufferevent_socket_new (base fd options : Nat)
  | event_base_loopbreak (base : Nat)
  | event_base_loopexit (base : Nat) (result : Int)
  | set_event_base (base : Nat)
  | accept_connection (bev : Nat)
  deriving DecidableEq, Repr

/-- The constant `SIGINT`. -/
def SIGINT : Nat := 2

/-- The constant `SIGTERM`. -/
def SIGTERM : Nat := 15

/-- The constant `EV_SIGNAL` of libevent. -/
def EV_SIGNAL : Nat := 8

/-- The constant `LEV_OPT_CLOSE_ON_FREE` of libevent. -/
def LEV_OPT_CLOSE_ON_FREE : Nat := 2

/-- The constant `LEV_OPT_REUSEABLE` of libevent. -/
def LEV_OPT_REUSEABLE : Nat := 8

/-- The constant `BEV_OPT_CLOSE_ON_FREE` of libevent. -/
def BEV_OPT_CLOSE_ON_FREE : Nat := 1

/-- The callback `listener_cb(listener, fd, sa, socklen, user_data)`; the peer
address `sa` and `socklen` are not used by the body and are left out.  `bev`
is what `bufferevent_socket_new` returns, `none` for `NULL`.  The two calls on
`session_manager` are the last two of the trace. -/
def listener_cb (_listener : Nat) (fd : Nat) (user_data : Nat) (bev : Option Nat) :
    List Call :=
  let base := user_data
  match bev with
  | none =>
    [.bufferevent_socket_new base fd BEV_OPT_CLOSE_ON_FREE,
     .cerr "Error constructing bufferevent!\n",
     .event_base_loopbreak base]
  | some bev =>
    [.bufferevent_socket_new base fd BEV_OPT_CLOSE_ON_FREE,
     .set_event_base base,
     .accept_connection bev]

/-- The callback `signal_cb(fd, event, arg)`; `result` is what
`event_base_loopexit(base, NULL)` returns. -/
def signal_cb (_fd : Nat) (_event : Nat) (arg : Nat) (result : Int) : List Call :=
  let base := arg
  if result ≠ 0 then
    [.event_base_loopexit base result, .cerr "failed to exit event loop\n"]
  else [.event_base_loopexit base result]

/-! ## The event loop (libevent) -/

/-- What libevent holds for an event base: the signal events that were added
(signal number, callback, argument) and the listeners bound to it (handle,
callback, argument). -/
structure event_base where
  signals : List (Nat × event_callback_fn × Nat)
  listeners : List (Nat × evconnlistener_cb × Nat)
  deriving DecidableEq, Repr

/-- What reaches the event loop: a signal for which an event may have been
added, with the result the `event_base_loopexit` of its callback will get, or
a connection accepted on the listening socket, with the buffer event
`bufferevent_socket_new` will return for it. -/
inductive arrival where
  | signal (signum : Nat) (loopexit : Int)
  | connection (fd : Nat) (bev : Option Nat)
  deriving DecidableEq, Repr

/-- One turn of the loop: the callbacks libevent runs for an arrival. -/
def deliver (eb : event_base) : arrival → List Call
  | .signal signum loopexit =>
    (eb.signals.filter (fun e => e.1 = signum)).flatMap
      (fun e => match e.2.1 with
        | .signal_cb => signal_cb signum EV_SIGNAL e.2.2 loopexit)
  | .connection fd bev =>
    eb.listeners.flatMap
      (fun l => match l.2.1 with
        | .listener_cb => listener_cb l.1 fd l.2.2 bev)

/-- Whether the callbacks of a turn asked the loop of `base` to stop: an
`event_base_loopbreak`, or an `event_base_loopexit` that returned 0. -/
def stops_loop (base : Nat) (calls : List Call) : Bool :=
  calls.any (fun c => c = .event_base_loopbreak base ∨ c = .event_base_loopexit base 0)

/-- The function `event_base_dispatch(base)`: the calls made by the callbacks
it runs, and whether it returns (it does not when the arrivals run out before
a callback stops the loop: it keeps waiting). -/
def event_base_dispatch (base : Nat) (eb : event_base) : List arrival → List Call × Bool
  | [] => ([], false)
  | a :: rest =>
    if stops_loop base (deliver eb a) then (deliver eb a, true)
    else
      ((deliver eb a) ++ (event_base_dispatch base eb rest).1,
       (event_base_dispatch base eb rest).2)

/-! ## `main` -/

/-- What `main` meets outside: whether `POSIXLY_CORRECT` is set, the handles
`event_base_new` and `evconnlistener_new_bind` return (`none` for `NULL`), and
what reaches the event loop, in order. -/
structure world where
  posixly_correct : Bool
  evloop : Option Nat
  listener : Option Nat
  arrivals : List arrival
  deriving DecidableEq, Repr

/-- A run of `main`: the calls it made and the status it ended with, `none`
when it has not ended (it is still inside `event_base_dispatch`). -/
structure run where
  trace : List Call
  status : Option Nat
  deriving DecidableEq, Repr

/-- The calls of `main` from `event_base_new` up to and including
`evconnlistener_new_bind`, for the address `sa` it has filled in.
`evsignal_new` is taken to succeed, as the source takes it. -/
def main_setup (evloop : Nat) (bind_address : CStr) (sa : sockaddr_in) : List Call :=
  [.event_base_new,
   .evsignal_new evloop SIGINT .signal_cb evloop,
   .evsignal_add SIGINT,
   .evsignal_new evloop SIGTERM .signal_cb evloop,
   .evsignal_add SIGTERM,
   .evutil_inet_pton AF_INET bind_address,
   .evconnlistener_new_bind evloop .listener_cb evloop
     (LEV_OPT_REUSEABLE ||| LEV_OPT_CLOSE_ON_FREE) (-1) sa]

/-- What libevent does with a call that registers something: `evsignal_new`
creates an event (kept in the first component until it is added),
`evsignal_add` adds the event created for that signal to the base,
`evconnlistener_new_bind` binds a listener, whose handle is `listener`. -/
def register (listener : Nat)
    (s : List (Nat × event_callback_fn × Nat) × event_base) :
    Call → List (Nat × event_callback_fn × Nat) × event_base
  | .evsignal_new _ signum cb arg => ((signum, cb, arg) :: s.1, s.2)
  | .evsignal_add event =>
    match s.1.find? (fun e => e.1 = event) with
    | some e => (s.1, { s.2 with signals := s.2.signals ++ [e] })
    | none => s
  | .evconnlistener_new_bind _ cb ptr _ _ _ =>
    (s.1, { s.2 with listeners := s.2.listeners ++ [(listener, cb, ptr)] })
  | _ => s

/-- The event base as the calls of a trace leave it. -/
def registered (listener : Nat) (calls : List Call) : event_base :=
  (calls.foldl (register listener) ([], ⟨[], []⟩)).2

/-- The function `main(argc, argv)`. -/
def main (w : world) (argv : List CStr) : run :=
  let listen_port : Nat := 1883
  match parse_arguments w.posixly_correct argv {} with
  | none => ⟨[], none⟩
  | some (.exited status) => ⟨[.cout usage, .exit status], some status⟩
  | some (.returned options) =>
    match w.evloop with
    | none => ⟨[.event_base_new, .cerr "Could not initialize libevent\n"], some 1⟩
    | some evloop =>
      let sin0 : sockaddr_in := ⟨0, [0, 0], [0, 0, 0, 0]⟩
      let sin1 : sockaddr_in := { sin0 with sin_family := AF_INET }
      let sin2 : sockaddr_in :=
        match evutil_inet_pton sin1.sin_family options.bind_address with
        | some octets => { sin1 with sin_addr := octets }
        | none => sin1
      let sin : sockaddr_in := { sin2 with sin_port := htons listen_port }
      let setup := main_setup evloop options.bind_address sin
      match w.listener with
      | none => ⟨setup ++ [.cerr "Could not create listener!\n"], some 1⟩
      | some listener =>
        let loop := event_base_dispatch evloop (registered listener setup) w.arrivals
        if loop.2 then
          ⟨setup ++ [.event_base_dispatch evloop] ++ loop.1
             ++ [.event_free SIGTERM, .evconnlistener_free listener, .event_base_free evloop],
           some 0⟩
        else ⟨setup ++ [.event_base_dispatch evloop] ++ loop.1, none⟩

/-- The socket address a trace binds the listener to: the argument of its
first `evconnlistener_new_bind`. -/
def bound_sockaddr : List Call → Option sockaddr_in
  | [] => none
  | .evconnlistener_new_bind _ _ _ _ _ sa :: _ => some sa
  | _ :: calls => bound_sockaddr calls

/-! ## Command lines of `-b A` and `-p N` options -/

/-- A short option with its argument in the next element: `-b A` or `-p N`. -/
inductive short_opt where
  | b (address : CStr)
  | p (port : CStr)
  deriving DecidableEq, Repr

/-- The two elements of `argv` an option is written as. -/
def short_opt.words : short_opt → List CStr
  | .b address => [['-', 'b'], address]
  | .p port => [['-', 'p'], port]

/-- The elements of `argv` after the program name for a command line made of
these options, in this order. -/
def command_line : List short_opt → List CStr
  | [] => []
  | o :: opts => o.words ++ command_line opts

/-- The argument of the last `-b` of a command line, if there is one. -/
def last_b (opts : List short_opt) : Option CStr :=
  (opts.filterMap (fun o => match o with | .b a => some a | .p _ => none)).getLast?

/-- The argument of the last `-p` of a command line, if there is one. -/
def last_p (opts : List short_opt) : Option CStr :=
  (opts.filterMap (fun o => match o with | .p n => some n | .b _ => none)).getLast?

/-- The number a text of decimal digits denotes. -/
def decimal_value (ds : CStr) : Nat :=
  Nat.ofDigits 10 (ds.reverse.map (fun c => c.toNat - 48))

/-- A text is a decimal port: one or more decimal digits that denote a number
of 0..65535. -/
def decimal_port (ds : CStr) : Prop :=
  ds ≠ [] ∧ (∀ c ∈ ds, isdigit c = true) ∧ decimal_value ds ≤ 65535

instance (ds : CStr) : Decidable (decimal_port ds) := by
  unfold decimal_port; infer_instance

/-! ## `parse_arguments` ends -/

/-- What is left to scan in a state of `getopt`: the characters of the
elements not yet reached, each with its terminator, and those of the current
cluster. -/
def getopt_state.left (st : getopt_state) : Nat := argv_size st.args + st.nextchar.length

/-- Skipping elements does not add characters. -/
lemma argv_size_dropWhile_le (q : CStr → Bool) (args : List CStr) :
    argv_size (args.dropWhile q) ≤ argv_size args := by
  induction args with
  | nil => simp
  | cons a rest ih =>
    simp only [List.dropWhile_cons]
    split
    · simp only [argv_size, List.map_cons, List.sum_cons] at ih ⊢; omega
    · exact le_refl _

/-- A short option leaves no more to scan than what followed its
character. -/
lemma short_option_left (os : CStr) (c : Char) (nc : CStr) (rest : List CStr) :
    (short_option os c nc rest).2.left ≤ argv_size rest + nc.length := by
  unfold short_option
  split
  · simp [getopt_state.left]
  · split
    · simp [getopt_state.left]
    · split
      · split <;> simp [getopt_state.left, argv_size, List.map_cons, List.sum_cons]
      · simp [getopt_state.left]

/-- A long option leaves no more to scan than the elements after it. -/
lemma process_long_option_left (lo : List option) (text : CStr) (rest : List CStr) :
    (process_long_option lo text rest).2.left ≤ argv_size rest := by
  unfold process_long_option
  simp only []
  split
  · simp [getopt_state.left]
  · simp [getopt_state.left]
  · split
    · split <;> simp [getopt_state.left]
    · split
      · split <;> simp [getopt_state.left, argv_size, List.map_cons, List.sum_cons]
      · simp [getopt_state.left]

/-- Every call of `getopt_long` that returns an option leaves strictly less
to scan. -/
lemma getopt_long_left (pc : Bool) (os : CStr) (lo : List option) (st : getopt_state)
    (h : (getopt_long pc os lo st).1 ≠ -1) :
    (getopt_long pc os lo st).2.left < st.left := by
  obtain ⟨args, nextchar, oa⟩ := st
  cases nextchar with
  | cons c nc =>
    have := short_option_left os c nc args
    simp only [getopt_long, getopt_state.left, List.length_cons] at this ⊢
    omega
  | nil =>
    have hskip : argv_size (if pc = true then args else args.dropWhile nonoption_p)
        ≤ argv_size args := by
      split
      · exact le_refl _
      · exact argv_size_dropWhile_le _ _
    simp only [getopt_long] at h ⊢
    generalize (if pc = true then args else args.dropWhile nonoption_p) = args1 at h hskip ⊢
    cases args1 with
    | nil => exact absurd rfl h
    | cons a rest =>
      simp only [] at h ⊢
      split at h
      · exact absurd rfl h
      · rename_i hne
        simp only [hne, if_false]
        split at h
        · rename_i text
          have := process_long_option_left lo text rest
          simp only [getopt_state.left, argv_size, List.map_cons, List.sum_cons,
            List.length_cons, List.length_nil] at this hskip ⊢
          omega
        · rename_i c nc hx
          have := short_option_left os c nc rest
          simp only [getopt_state.left, argv_size, List.map_cons, List.sum_cons,
            List.length_cons, List.length_nil] at this hskip ⊢
          omega
        · exact absurd rfl h

/-- The loop of `parse_arguments` ends when its fuel exceeds what is left to
scan. -/
lemma parse_loop_isSome (pc : Bool) :
    ∀ (fuel : Nat) (st : getopt_state) (o : options_t), st.left < fuel →
      (parse_loop pc fuel st o).isSome = true := by
  intro fuel
  induction fuel with
  | zero => intro st o h; omega
  | succ f ih =>
    intro st o h
    rw [parse_loop]
    by_cases h1 : (getopt_long pc optstring longopts st).1 = -1
    · simp [h1]
    · have hlt := getopt_long_left pc optstring longopts st h1
      simp only [h1, if_false]
      split
      · exact ih _ _ (by omega)
      · split
        · exact ih _ _ (by omega)
        · split <;> rfl

/-- The function `parse_arguments` always ends, by returning or by `exit`:
the fuel it gives its loop suffices on every command line. -/
lemma parse_arguments_isSome (pc : Bool) (argv : List CStr) (o : options_t) :
    (parse_arguments pc argv o).isSome = true :=
  parse_loop_isSome pc _ _ o (by simp [getopt_state.left])

/-! ## `parse_arguments` on short options -/

/-- On `-b A`, `getopt_long` returns the character b with `optarg = A` and
moves past both elements. -/
lemma getopt_long_b (pc : Bool) (a : CStr) (rest : List CStr) (oa : Option CStr) :
    getopt_long pc optstring longopts ⟨['-', 'b'] :: a :: rest, [], oa⟩
      = ((('b').toNat : Int), ⟨rest, [], some a⟩) := by
  cases pc <;> rfl

/-- On `-p N`, `getopt_long` returns the character p with `optarg = N` and
moves past both elements. -/
lemma getopt_long_p (pc : Bool) (a : CStr) (rest : List CStr) (oa : Option CStr) :
    getopt_long pc optstring longopts ⟨['-', 'p'] :: a :: rest, [], oa⟩
      = ((('p').toNat : Int), ⟨rest, [], some a⟩) := by
  cases pc <;> rfl

/-- At the end of `argv`, `getopt_long` returns -1. -/
lemma getopt_long_nil (pc : Bool) (oa : Option CStr) :
    getopt_long pc optstring longopts ⟨[], [], oa⟩ = (-1, ⟨[], [], none⟩) := by
  cases pc <;> rfl

/-- The digit loop of `strtol` computes the decimal value of a text of
digits, on top of the accumulator shifted by its length. -/
lemma strtol_digits_eq (ds : CStr) (h : ∀ c ∈ ds, isdigit c = true) (acc : Nat) :
    strtol_digits acc ds = acc * 10 ^ ds.length + decimal_value ds := by
  induction ds generalizing acc with
  | nil => simp [strtol_digits, decimal_value]
  | cons c cs ih =>
    have hc : isdigit c = true := h c (List.mem_cons_self _ _)
    have hcs : ∀ x ∈ cs, isdigit x = true := fun x hx => h x (List.mem_cons_of_mem _ hx)
    simp only [strtol_digits, hc, if_true]
    rw [ih hcs]
    simp only [decimal_value, List.reverse_cons, List.map_append, List.map_cons, List.map_nil,
      Nat.ofDigits_append, Nat.ofDigits_singleton, List.length_map, List.length_reverse,
      List.length_cons]
    ring

/-- A digit is neither white space nor a sign. -/
lemma isdigit_not_space_sign (c : Char) (h : isdigit c = true) :
    isspace c = false ∧ c ≠ '-' ∧ c ≠ '+' := by
  simp only [isdigit, decide_eq_true_eq] at h
  refine ⟨?_, ?_, ?_⟩
  · simp only [isspace, decide_eq_false_iff_not]
    omega
  · rintro rfl
    revert h
    decide
  · rintro rfl
    revert h
    decide

/-- The port `parse_arguments` stores for a decimal port text is the number
the text denotes. -/
lemma to_uint16_atoi_decimal (ds : CStr) (h : decimal_port ds) :
    to_uint16 (atoi ds) = decimal_value ds := by
  obtain ⟨hne, hd, hle⟩ := h
  cases ds with
  | nil => exact absurd rfl hne
  | cons c cs =>
    obtain ⟨hsp, hminus, hplus⟩ := isdigit_not_space_sign c (hd c (List.mem_cons_self _ _))
    have hv : strtol_digits 0 (c :: cs) = decimal_value (c :: cs) := by
      rw [strtol_digits_eq _ hd]; simp
    have hs : strtol (c :: cs) = (decimal_value (c :: cs) : Int) := by
      unfold strtol
      simp only [List.dropWhile_cons, hsp, Bool.false_eq_true, if_false]
      split
      · rename_i heq; simp at heq; exact absurd heq.1 hminus
      · rename_i heq; simp at heq; exact absurd heq.1 hplus
      · rw [hv]; omega
    unfold to_uint16 atoi
    rw [hs]
    omega

/-- The last `-b` and the last `-p` of a command line that starts with
`-b A`. -/
lemma last_cons_b (a : CStr) (xs : List short_opt) :
    last_b (.b a :: xs) = some ((last_b xs).getD a) ∧ last_p (.b a :: xs) = last_p xs := by
  simp only [last_b, last_p, List.filterMap_cons, List.getLast?_cons, and_self]

/-- The last `-b` and the last `-p` of a command line that starts with
`-p N`. -/
lemma last_cons_p (n : CStr) (xs : List short_opt) :
    last_b (.p n :: xs) = last_b xs ∧ last_p (.p n :: xs) = some ((last_p xs).getD n) := by
  simp only [last_b, last_p, List.filterMap_cons, List.getLast?_cons, and_self]

/-- The loop of `parse_arguments` on a command line of `-b A` and `-p N`
options: with more fuel than there are options it returns, having stored the
argument of the last `-b` and the number of the last `-p`, and having kept
what was there for an option that does not occur. -/
lemma parse_loop_command_line (pc : Bool) (opts : List short_opt) :
    ∀ (fuel : Nat) (o : options_t) (oa : Option CStr),
      (∀ n, short_opt.p n ∈ opts → decimal_port n) → opts.length < fuel →
      parse_loop pc fuel ⟨command_line opts, [], oa⟩ o
        = some (.returned ⟨(last_b opts).getD o.bind_address,
            ((last_p opts).map decimal_value).getD o.bind_port⟩) := by
  induction opts with
  | nil =>
    intro fuel o oa _ hf
    obtain ⟨f, rfl⟩ : ∃ f, fuel = f + 1 := ⟨fuel - 1, by simp at hf; omega⟩
    simp [parse_loop, command_line, getopt_long_nil, last_b, last_p]
  | cons x xs ih =>
    intro fuel o oa hp hf
    obtain ⟨f, rfl⟩ : ∃ f, fuel = f + 1 := ⟨fuel - 1, by simp at hf; omega⟩
    have hxs : ∀ n, short_opt.p n ∈ xs → decimal_port n :=
      fun n hn => hp n (List.mem_cons_of_mem _ hn)
    have hf1 : xs.length < f := by simp at hf; omega
    cases x with
    | b a =>
      have step : parse_loop pc (f + 1) ⟨command_line (.b a :: xs), [], oa⟩ o
          = parse_loop pc f ⟨command_line xs, [], some a⟩ { o with bind_address := a } := by
        simp only [command_line, short_opt.words, List.cons_append, List.nil_append]
        rw [parse_loop]
        simp only [getopt_long_b]
        rfl
      rw [step, ih f _ _ hxs hf1, (last_cons_b a xs).1, (last_cons_b a xs).2]
      cases last_b xs <;> rfl
    | p n =>
      have step : parse_loop pc (f + 1) ⟨command_line (.p n :: xs), [], oa⟩ o
          = parse_loop pc f ⟨command_line xs, [], some n⟩
              { o with bind_port := to_uint16 (atoi n) } := by
        simp only [command_line, short_opt.words, List.cons_append, List.nil_append]
        rw [parse_loop]
        simp only [getopt_long_p]
        rfl
      rw [step, ih f _ _ hxs hf1, to_uint16_atoi_decimal n (hp n (List.mem_cons_self _ _)),
        (last_cons_p n xs).1, (last_cons_p n xs).2]
      cases last_p xs <;> rfl

/-- The fuel `parse_arguments` gives its loop exceeds the number of options
of a command line. -/
lemma length_le_argv_size_command_line (opts : List short_opt) :
    opts.length ≤ argv_size (command_line opts) := by
  induction opts with
  | nil => simp
  | cons x xs ih =>
    cases x <;>
      simp only [command_line, short_opt.words, argv_size, List.cons_append, List.nil_append,
        List.map_cons, List.sum_cons, List.length_cons] at ih ⊢ <;> omega

/-- C2: on a command line made only of `-b A` and `-p N` options, each N a
decimal port, `parse_arguments` returns (it does not exit) with
`options.bind_address` the argument of the last `-b`, or the default `"0"`
when there is none, and `options.bind_port` the number of the last `-p`, or
the default 1883 when there is none.  Started on any value of `options`, it
leaves `bind_address` as it was when there is no `-b` and `bind_port` as it
was when there is no `-p`; a single `-b A` changes `bind_address` only and a
single `-p N` changes `bind_port` only. -/
theorem parse_arguments_short_options (pc : Bool) (prog : CStr) (opts : List short_opt)
    (h : ∀ n, short_opt.p n ∈ opts → decimal_port n) :
    parse_arguments pc (prog :: command_line opts) {}
        = some (.returned ⟨(last_b opts).getD "0".toList,
            ((last_p opts).map decimal_value).getD 1883⟩) ∧
    (∀ o : options_t,
      parse_arguments pc (prog :: command_line opts) o
        = some (.returned ⟨(last_b opts).getD o.bind_address,
            ((last_p opts).map decimal_value).getD o.bind_port⟩)) ∧
    (∀ (o : options_t) (a : CStr),
      parse_arguments pc (prog :: command_line [.b a]) o
        = some (.returned { o with bind_address := a })) ∧
    (∀ (o : options_t) (n : CStr), decimal_port n →
      parse_arguments pc (prog :: command_line [.p n]) o
        = some (.returned { o with bind_port := decimal_value n })) := by
  have key : ∀ (xs : List short_opt), (∀ n, short_opt.p n ∈ xs → decimal_port n) →
      ∀ o : options_t, parse_arguments pc (prog :: command_line xs) o
        = some (.returned ⟨(last_b xs).getD o.bind_address,
            ((last_p xs).map decimal_value).getD o.bind_port⟩) := by
    intro xs hxs o
    unfold parse_arguments
    simp only [List.drop_succ_cons, List.drop_zero]
    exact parse_loop_command_line pc xs _ o none hxs
      (Nat.lt_succ_of_le (length_le_argv_size_command_line xs))
  refine ⟨key opts h {}, key opts h, ?_, ?_⟩
  · intro o a
    exact key [.b a] (by simp) o
  · intro o n hn
    refine key [.p n] ?_ o
    intro m hm
    simp only [List.mem_singleton, short_opt.p.injEq] at hm
    exact hm ▸ hn

/-- C2 at `mqtt_broker -p 1884 -b 127.0.0.1 -p 08080`: the address stored is
127.0.0.1 and the port stored is 8080. -/
theorem parse_arguments_short_options_witness :
    (∀ n, short_opt.p n ∈ [short_opt.p "1884".toList, .b "127.0.0.1".toList,
        .p "08080".toList] → decimal_port n) ∧
    parse_arguments false ("mqtt_broker".toList :: command_line
        [.p "1884".toList, .b "127.0.0.1".toList, .p "08080".toList]) {}
      = some (.returned ⟨"127.0.0.1".toList, 8080⟩) :=
  have h : ∀ n, short_opt.p n ∈ [short_opt.p "1884".toList, .b "127.0.0.1".toList,
      .p "08080".toList] → decimal_port n := by
    intro n hn
    simp only [List.mem_cons, short_opt.p.injEq, List.mem_singleton, reduceCtorEq, false_or,
      List.mem_nil_iff, or_false] at hn
    rcases hn with rfl | rfl <;> decide
  ⟨h, (parse_arguments_short_options false "mqtt_broker".toList _ h).1⟩

/-! ## The callbacks -/

/-- The set-up calls of `main` leave the event base with a `signal_cb` event
for `SIGINT` and one for `SIGTERM`, both with the base as argument, and the
listener with `listener_cb` and the base as argument. -/
lemma registered_main_setup (listener evloop : Nat) (a : CStr) (sa : sockaddr_in) :
    registered listener (main_setup evloop a sa)
      = ⟨[(SIGINT, .signal_cb, evloop), (SIGTERM, .signal_cb, evloop)],
         [(listener, .listener_cb, evloop)]⟩ := rfl

/-- C5: `listener_cb` hands an accepted connection to the core exactly once.
For a connection accepted on the listener `main` has bound, the loop runs
`listener_cb` once, with the event base as `user_data`.  When
`bufferevent_socket_new` returns a buffer event, the calls of `listener_cb`
on the session manager are `set_event_base(base)` and then
`accept_connection(bev)`, each once, in that order, with that base and that
buffer event, and the loop is not broken; when it returns `NULL`, there is no
call on the session manager and `event_base_loopbreak(base)` is called. -/
theorem listener_cb_hands_over_once (listener fd base : Nat) :
    (∀ (a : CStr) (sa : sockaddr_in) (bev : Option Nat),
      deliver (registered listener (main_setup base a sa)) (.connection fd bev)
        = listener_cb listener fd base bev) ∧
    (∀ bev : Nat,
      (listener_cb listener fd base (some bev)).filter
          (fun c => match c with
            | .set_event_base _ => true
            | .accept_connection _ => true
            | _ => false)
        = [.set_event_base base, .accept_connection bev] ∧
      (listener_cb listener fd base (some bev)).head?
        = some (.bufferevent_socket_new base fd BEV_OPT_CLOSE_ON_FREE) ∧
      (∀ b, Call.event_base_loopbreak b ∉ listener_cb listener fd base (some bev))) ∧
    ((∀ b, Call.set_event_base b ∉ listener_cb listener fd base none) ∧
      (∀ v, Call.accept_connection v ∉ listener_cb listener fd base none) ∧
      (listener_cb listener fd base none).head?
        = some (.bufferevent_socket_new base fd BEV_OPT_CLOSE_ON_FREE) ∧
      Call.event_base_loopbreak base ∈ listener_cb listener fd base none) := by
  refine ⟨fun a sa bev => ?_, fun bev => ⟨?_, ?_, ?_⟩, ?_, ?_, ?_, ?_⟩
  · rw [registered_main_setup]
    simp [deliver]
  all_goals simp [listener_cb]

/-! ## Signals and the end of `main` -/

/-- For `SIGINT` and for `SIGTERM` the loop `main` has set up runs `signal_cb`,
once, with the signal number, `EV_SIGNAL` and the event base. -/
lemma deliver_signal (listener evloop : Nat) (a : CStr) (sa : sockaddr_in) (signum : Nat)
    (res : Int) (hsig : signum = SIGINT ∨ signum = SIGTERM) :
    deliver (registered listener (main_setup evloop a sa)) (.signal signum res)
      = signal_cb signum EV_SIGNAL evloop res := by
  rw [registered_main_setup]
  rcases hsig with rfl | rfl <;> simp [deliver, SIGINT, SIGTERM]

/-- A `signal_cb` whose `event_base_loopexit` returns 0 stops the loop. -/
lemma stops_loop_signal_cb (fd ev base : Nat) :
    stops_loop base (signal_cb fd ev base 0) = true := by
  simp [stops_loop, signal_cb]

/-- The loop does not look at what arrives after the arrival whose callbacks
stop it, and it returns. -/
lemma event_base_dispatch_stop (base : Nat) (eb : event_base) (a : arrival)
    (post : List arrival) (h : stops_loop base (deliver eb a) = true) :
    ∀ pre : List arrival,
      event_base_dispatch base eb (pre ++ a :: post) = event_base_dispatch base eb (pre ++ [a]) ∧
      (event_base_dispatch base eb (pre ++ [a])).2 = true := by
  intro pre
  induction pre with
  | nil => simp [event_base_dispatch, h]
  | cons x xs ih =>
    by_cases hx : stops_loop base (deliver eb x) = true
    · simp [event_base_dispatch, hx]
    · simp [event_base_dispatch, hx, ih.1, ih.2]

/-- The calls of a run of the loop start with the callbacks of the first
arrival. -/
lemma deliver_prefix_event_base_dispatch (base : Nat) (eb : event_base) (a : arrival)
    (rest : List arrival) :
    deliver eb a <+: (event_base_dispatch base eb (a :: rest)).1 := by
  simp only [event_base_dispatch]
  split
  · exact List.prefix_refl _
  · exact List.prefix_append _ _

/-- Past argument parsing and with event base and listener created, `main`
runs the loop; it ends with status 0 after the three `free` calls when the
loop returns, and does not end when the loop does not.  The address it has
bound is port 1883 at the octets of the bind address, or at 0.0.0.0 when the
bind address has none. -/
lemma main_dispatch (pc : Bool) (argv : List CStr) (o : options_t) (evloop listener : Nat)
    (arrivals : List arrival) (setup : List Call) (loop : List Call × Bool)
    (h : parse_arguments pc argv {} = some (.returned o))
    (hsetup : setup = main_setup evloop o.bind_address
      ⟨AF_INET, htons 1883, (evutil_inet_pton AF_INET o.bind_address).getD [0, 0, 0, 0]⟩)
    (hloop : loop = event_base_dispatch evloop (registered listener setup) arrivals) :
    main ⟨pc, some evloop, some listener, arrivals⟩ argv
      = if loop.2 then
          ⟨setup ++ [.event_base_dispatch evloop] ++ loop.1
            ++ [.event_free SIGTERM, .evconnlistener_free listener, .event_base_free evloop],
           some 0⟩
        else ⟨setup ++ [.event_base_dispatch evloop] ++ loop.1, none⟩ := by
  subst hsetup hloop
  simp only [main, h]
  cases evutil_inet_pton AF_INET o.bind_address <;> rfl

/-- C6: once `main` is past argument parsing and has its event base and
listener, (1) its calls register a `signal_cb` event for `SIGINT` and one for
`SIGTERM` on the event base, and (2) on either signal the loop runs
`signal_cb` with that base; (3) `signal_cb` calls `event_base_loopexit` on
the base it is given, and makes no `bufferevent_socket_new`, `set_event_base`
or `accept_connection` call; (4) whenever `main` ends after the loop, it ends
with status 0 and its last calls are `event_free`,
`evconnlistener_free(listener)`, `event_base_free`; (5) when a `SIGINT` or
`SIGTERM` arrives and its `event_base_loopexit` succeeds, `main` does end so,
and (6) what arrives after that signal changes nothing: no further connection
is accepted. -/
theorem shutdown_on_signal (pc : Bool) (argv : List CStr) (o : options_t)
    (evloop listener : Nat) (pre post : List arrival) (signum : Nat)
    (hparse : parse_arguments pc argv {} = some (.returned o))
    (hsig : signum = SIGINT ∨ signum = SIGTERM) :
    (∀ arrivals,
      [Call.evsignal_new evloop SIGINT .signal_cb evloop, .evsignal_add SIGINT,
        .evsignal_new evloop SIGTERM .signal_cb evloop, .evsignal_add SIGTERM]
        <:+: (main ⟨pc, some evloop, some listener, arrivals⟩ argv).trace) ∧
    (∀ res rest,
      [Call.event_base_dispatch evloop] ++ signal_cb signum EV_SIGNAL evloop res
        <:+: (main ⟨pc, some evloop, some listener, .signal signum res :: rest⟩ argv).trace) ∧
    (∀ fd ev arg res,
      (signal_cb fd ev arg res).head? = some (.event_base_loopexit arg res) ∧
      (∀ b f x, Call.bufferevent_socket_new b f x ∉ signal_cb fd ev arg res) ∧
      (∀ b, Call.set_event_base b ∉ signal_cb fd ev arg res) ∧
      (∀ v, Call.accept_connection v ∉ signal_cb fd ev arg res)) ∧
    (∀ arrivals,
      (main ⟨pc, some evloop, some listener, arrivals⟩ argv).status = none ∨
      ((main ⟨pc, some evloop, some listener, arrivals⟩ argv).status = some 0 ∧
        [Call.event_free SIGTERM, .evconnlistener_free listener, .event_base_free evloop]
          <:+ (main ⟨pc, some evloop, some listener, arrivals⟩ argv).trace)) ∧
    (main ⟨pc, some evloop, some listener, pre ++ .signal signum 0 :: post⟩ argv).status
      = some 0 ∧
    main ⟨pc, some evloop, some listener, pre ++ .signal signum 0 :: post⟩ argv
      = main ⟨pc, some evloop, some listener, pre ++ [.signal signum 0]⟩ argv := by
  have hm := fun arrivals =>
    main_dispatch pc argv o evloop listener arrivals _ _ hparse rfl rfl
  have hstop := event_base_dispatch_stop evloop
    (registered listener (main_setup evloop o.bind_address
      ⟨AF_INET, htons 1883, (evutil_inet_pton AF_INET o.bind_address).getD [0, 0, 0, 0]⟩))
    (.signal signum 0) post
    (by rw [deliver_signal _ _ _ _ _ _ hsig]; exact stops_loop_signal_cb _ _ _) pre
  refine ⟨?_, ?_, ?_, ?_, ?_, ?_⟩
  · intro arrivals
    have hin : ∀ (sa : sockaddr_in) (more : List Call),
        [Call.evsignal_new evloop SIGINT .signal_cb evloop, .evsignal_add SIGINT,
          .evsignal_new evloop SIGTERM .signal_cb evloop, .evsignal_add SIGTERM]
          <:+: main_setup evloop o.bind_address sa ++ more := fun sa more =>
      ⟨[.event_base_new], [.evutil_inet_pton AF_INET o.bind_address,
        .evconnlistener_new_bind evloop .listener_cb evloop
          (LEV_OPT_REUSEABLE ||| LEV_OPT_CLOSE_ON_FREE) (-1) sa] ++ more, rfl⟩
    rw [hm arrivals]
    split
    · simp only [List.append_assoc]; exact hin _ _
    · simp only [List.append_assoc]; exact hin _ _
  · intro res rest
    obtain ⟨x, hx⟩ := deliver_prefix_event_base_dispatch evloop
      (registered listener (main_setup evloop o.bind_address
        ⟨AF_INET, htons 1883, (evutil_inet_pton AF_INET o.bind_address).getD [0, 0, 0, 0]⟩))
      (.signal signum res) rest
    rw [deliver_signal _ _ _ _ _ _ hsig] at hx
    rw [hm (.signal signum res :: rest), ← hx]
    split
    · exact ⟨_, x ++ [.event_free SIGTERM, .evconnlistener_free listener,
        .event_base_free evloop], by simp only [List.append_assoc]; rfl⟩
    · exact ⟨_, x, by simp only [List.append_assoc]; rfl⟩
  · intro fd ev arg res
    refine ⟨?_, ?_, ?_, ?_⟩ <;> (unfold signal_cb; split <;> simp)
  · intro arrivals
    rw [hm arrivals]
    split
    · right
      exact ⟨rfl, ⟨_, rfl⟩⟩
    · left; rfl
  · rw [hm, hstop.1, hstop.2]
    rfl
  · rw [hm, hm, hstop.1]
/-- C6 at `mqtt_broker` with no options, where a connection arrives, then
`SIGTERM`, then another connection: `main` ends with status 0 and runs as if
nothing had followed the signal. -/
theorem shutdown_on_signal_witness :
    parse_arguments false ["mqtt_broker".toList] {} = some (.returned {}) ∧
    (SIGTERM = SIGINT ∨ SIGTERM = SIGTERM) ∧
    (main ⟨false, some 1, some 2,
        [.connection 5 (some 3)] ++ .signal SIGTERM 0 :: [.connection 6 (some 4)]⟩
      ["mqtt_broker".toList]).status = some 0 ∧
    main ⟨false, some 1, some 2,
        [.connection 5 (some 3)] ++ .signal SIGTERM 0 :: [.connection 6 (some 4)]⟩
      ["mqtt_broker".toList]
      = main ⟨false, some 1, some 2, [.connection 5 (some 3)] ++ [.signal SIGTERM 0]⟩
          ["mqtt_broker".toList] :=
  ⟨by decide, Or.inr rfl,
    (shutdown_on_signal false ["mqtt_broker".toList] {} 1 2 [.connection 5 (some 3)]
      [.connection 6 (some 4)] SIGTERM (by decide) (Or.inr rfl)).2.2.2.2⟩

/-! ## The address and the port `main` binds to -/

/-- The address a run of `main` binds to is decided before the event loop
starts: whatever the listener creation returns and whatever arrives, it is
the address of the first `evconnlistener_new_bind` of the set-up calls. -/
lemma bound_sockaddr_main_setup (evloop : Nat) (a : CStr) (sa : sockaddr_in)
    (more : List Call) :
    bound_sockaddr (main_setup evloop a sa ++ more) = some sa := by
  simp [main_setup, bound_sockaddr]

/-- Once the arguments are parsed and the event base exists, `main` binds the
listener to port 1883 and to the octets `evutil_inet_pton` finds in the bind
address, or to 0.0.0.0 when it finds none. -/
lemma bound_sockaddr_main (pc : Bool) (argv : List CStr) (o : options_t) (evloop : Nat)
    (listener : Option Nat) (arrivals : List arrival)
    (h : parse_arguments pc argv {} = some (.returned o)) :
    bound_sockaddr (main ⟨pc, some evloop, listener, arrivals⟩ argv).trace
      = some ⟨AF_INET, htons 1883,
          (evutil_inet_pton AF_INET o.bind_address).getD [0, 0, 0, 0]⟩ := by
  simp only [main, h]
  cases listener with
  | none =>
    simp only [bound_sockaddr_main_setup]
    cases evutil_inet_pton AF_INET o.bind_address <;> rfl
  | some l =>
    simp only []
    split
    · simp only [List.append_assoc, bound_sockaddr_main_setup]
      cases evutil_inet_pton AF_INET o.bind_address <;> rfl
    · simp only [List.append_assoc, bound_sockaddr_main_setup]
      cases evutil_inet_pton AF_INET o.bind_address <;> rfl

/-- C1 (the code departs from it): on the command line `mqtt_broker -p 1884`,
`parse_arguments` stores 1884 in `options.bind_port`, yet the address `main`
passes to `evconnlistener_new_bind` has `sin_port = htons(1883)`, which is
not `htons(1884)`: `main` takes the port from its local `listen_port` and
never reads `options.bind_port`. -/
theorem main_binds_port_1883_after_p_1884 (pc : Bool) (evloop : Nat)
    (listener : Option Nat) (arrivals : List arrival) :
    parse_arguments pc ["mqtt_broker".toList, "-p".toList, "1884".toList] {}
      = some (.returned ⟨"0".toList, 1884⟩) ∧
    (bound_sockaddr (main ⟨pc, some evloop, listener, arrivals⟩
        ["mqtt_broker".toList, "-p".toList, "1884".toList]).trace).map
      (fun sa => sa.sin_port) = some (htons 1883) ∧
    htons 1883 ≠ htons 1884 := by
  have hp : parse_arguments pc ["mqtt_broker".toList, "-p".toList, "1884".toList] {}
      = some (.returned ⟨"0".toList, 1884⟩) := by
    cases pc <;> decide
  refine ⟨hp, ?_, by decide⟩
  rw [bound_sockaddr_main pc _ _ evloop listener arrivals hp]
  rfl

/-- C3 (the code departs from it): the long option table holds the names
`bind-addr`, `bind-port` and `help`, so neither `broker-host` nor
`broker-port`, the names the usage text gives, is in it.  On
`--broker-host 127.0.0.1` and on `--broker-port 1884` `parse_arguments` prints
the usage text and exits with status 1, while `-b 127.0.0.1` and `-p 1884`
are stored. -/
theorem documented_long_options_rejected (pc : Bool) :
    longopts.map (fun p => p.name)
      = ["bind-addr".toList, "bind-port".toList, "help".toList] ∧
    parse_arguments pc ["mqtt_broker".toList, "--broker-host".toList, "127.0.0.1".toList] {}
      = some (.exited 1) ∧
    parse_arguments pc ["mqtt_broker".toList, "-b".toList, "127.0.0.1".toList] {}
      = some (.returned ⟨"127.0.0.1".toList, 1883⟩) ∧
    parse_arguments pc ["mqtt_broker".toList, "--broker-port".toList, "1884".toList] {}
      = some (.exited 1) ∧
    parse_arguments pc ["mqtt_broker".toList, "-p".toList, "1884".toList] {}
      = some (.returned ⟨"0".toList, 1884⟩) := by
  cases pc <;> decide

/-- C4 (the code departs from it): with no `-b` option the bind address is the
default `"0"`, in which `evutil_inet_pton` finds no IPv4 address, so `main`
binds to the zeroed `sin_addr`, 0.0.0.0 (every interface), and not to the
loopback address 127.0.0.1 the usage text names as default. -/
theorem main_binds_any_address_by_default (pc : Bool) (evloop : Nat)
    (listener : Option Nat) (arrivals : List arrival) :
    parse_arguments pc ["mqtt_broker".toList] {} = some (.returned ⟨"0".toList, 1883⟩) ∧
    evutil_inet_pton AF_INET "0".toList = none ∧
    (bound_sockaddr (main ⟨pc, some evloop, listener, arrivals⟩
        ["mqtt_broker".toList]).trace).map (fun sa => sa.sin_addr) = some [0, 0, 0, 0] ∧
    evutil_inet_pton AF_INET "127.0.0.1".toList = some [127, 0, 0, 1] := by
  have hp : parse_arguments pc ["mqtt_broker".toList] {}
      = some (.returned ⟨"0".toList, 1883⟩) := by
    cases pc <;> decide
  refine ⟨hp, by decide, ?_, by decide⟩
  rw [bound_sockaddr_main pc _ _ evloop listener arrivals hp]
  rfl

end MqttBroker
